import Mathlib

/-!
Shallow embedding of `src/extension.ts` (markdown2weixin VS Code extension).

Strings are modelled as `List Char`.  The JavaScript regular expressions
`/^#\s+(.+)$/m` (heading extraction) and `/([^/\\]+)\.md$/i` (basename
extraction) are embedded as executable matchers with the engine's
leftmost-match and greedy-with-backtracking semantics.  JavaScript string
truthiness (empty string is falsy) is made explicit at each use site.
-/

set_option autoImplicit false

namespace MD2WX

/-- JavaScript `\s` character class (also the set removed by `String.trim`):
tab, line feed, vertical tab, form feed, carriage return, space, NBSP,
Ogham space, the U+2000–U+200A range, line/paragraph separators, narrow
NBSP, medium mathematical space, ideographic space, BOM. -/
def isWs (c : Char) : Bool :=
  let n := c.toNat
  n = 0x9 || n = 0xa || n = 0xb || n = 0xc || n = 0xd || n = 0x20 ||
  n = 0xa0 || n = 0x1680 || (0x2000 ≤ n && n ≤ 0x200a) ||
  n = 0x2028 || n = 0x2029 || n = 0x202f || n = 0x205f ||
  n = 0x3000 || n = 0xfeff

/-- JavaScript line terminators: LF, CR, LS, PS.  `.` never matches these,
and in multiline mode `^` matches right after one and `$` right before one. -/
def isLineTerm (c : Char) : Bool :=
  c = '\n' || c = '\r' || c.toNat = 0x2028 || c.toNat = 0x2029

/-- What `.` matches (no `s` flag): any character except a line terminator. -/
def dotMatch (c : Char) : Bool := !(isLineTerm c)

/-- JavaScript `String.prototype.trim`: strip `isWs` characters from both ends. -/
def trim (l : List Char) : List Char :=
  ((l.dropWhile isWs).reverse.dropWhile isWs).reverse

/-- Match `(.+)$` at the current position: `.+` greedily takes the maximal
run of non-line-terminator characters (at least one); after that run the
position is the end of input or a line terminator, so `$` holds. -/
def matchDotPlusDollar : List Char → Option (List Char)
  | [] => none
  | c :: rest =>
    if dotMatch c then some (c :: rest.takeWhile dotMatch) else none

/-- Backtracking over the length of the `\s+` run: try consuming `k`
whitespace characters (largest first, as a greedy engine does), then match
`(.+)$` on the remainder; the first success wins. -/
def tryWsRuns : Nat → List Char → Option (List Char)
  | 0, _ => none
  | k + 1, l =>
    match matchDotPlusDollar (l.drop (k + 1)) with
    | some cap => some cap
    | none => tryWsRuns k l

/-- Match `\s+(.+)$` at the current position (the part of `/^#\s+(.+)$/m`
after the `#`), returning the capture group. -/
def matchAfterHash (l : List Char) : Option (List Char) :=
  tryWsRuns (l.takeWhile isWs).length l

/-- Scan for the leftmost match of `/^#\s+(.+)$/m`.  `atStart` records
whether the current position is the start of input or follows a line
terminator (where multiline `^` matches). -/
def findHeadingAux : Bool → List Char → Option (List Char)
  | _, [] => none
  | atStart, c :: rest =>
    match (if atStart && c = '#' then matchAfterHash rest else none) with
    | some cap => some cap
    | none => findHeadingAux (isLineTerm c) rest

/-- Embeds `text.match` of the heading pattern: the capture group of the first match. -/
def findHeading (text : List Char) : Option (List Char) :=
  findHeadingAux true text

/-- Characters excluded by `[^/\\]` in the basename regex. -/
def isSlash (c : Char) : Bool := c = '/' || c = '\\'

/-- Embeds `fileName.match` of the basename pattern: the capture group.  The match is
anchored at the end of the string, so the capture is exactly the maximal
run of non-slash characters immediately before the final `.md`
(case-insensitive), and it must be non-empty. -/
def fileNameMatch (fileName : List Char) : Option (List Char) :=
  match fileName.reverse with
  | d :: m :: dot :: rest =>
    if (d = 'd' || d = 'D') && (m = 'm' || m = 'M') && dot = '.' then
      let stem := rest.takeWhile (fun c => !isSlash c)
      if stem = [] then none else some stem.reverse
    else none
  | _ => none

/-- The fixed placeholder title for untitled documents. -/
def untitledPlaceholder : List Char := String.toList "未命名文档"

/-- Third step of `extractTitle`: `if (document.isUntitled) return '未命名文档'; return null;`. -/
def untitledFallback (isUntitled : Bool) : Option (List Char) :=
  if isUntitled then some untitledPlaceholder else none

/-- Second step of `extractTitle`: `if (fileNameMatch && fileNameMatch[1])
return fileNameMatch[1];` and otherwise fall through.  The truthiness test
on the capture (`fileNameMatch[1]`) is the emptiness test. -/
def fileFallback (fileName : List Char) (isUntitled : Bool) : Option (List Char) :=
  match fileNameMatch fileName with
  | some base => if base = [] then untitledFallback isUntitled else some base
  | none => untitledFallback isUntitled

/-- Embeds `extractTitle(document)` from the source, over the document text, the
file name and the `isUntitled` flag: first `#` heading capture trimmed if
the capture is truthy, else `.md` basename, else untitled placeholder,
else null. -/
def extractTitle (text fileName : List Char) (isUntitled : Bool) : Option (List Char) :=
  match findHeading text with
  | some cap => if cap = [] then fileFallback fileName isUntitled else some (trim cap)
  | none => fileFallback fileName isUntitled

/-- The `WeChatConfig` interface. -/
structure WeChatConfig where
  appid : List Char
  appSecret : List Char
  author : Option (List Char)
  digest : Option (List Char)
  deriving DecidableEq, Repr

/-- Embeds `getConfiguration()` as a function of the four raw setting strings
(each defaulted to `''` by the host when unset).  Trims all four; returns
null when a required field is falsy after trimming; maps the optional
fields through `author || undefined` / `digest || undefined`. -/
def getConfiguration (rawAppid rawAppSecret rawAuthor rawDigest : List Char) :
    Option WeChatConfig :=
  let appid := trim rawAppid
  let appSecret := trim rawAppSecret
  let author := trim rawAuthor
  let digest := trim rawDigest
  if appid = [] ∨ appSecret = [] then none
  else some
    { appid := appid
      appSecret := appSecret
      author := if author = [] then none else some author
      digest := if digest = [] then none else some digest }

/-- The `data` payload of the `ApiResponse` interface. -/
structure ApiData where
  media_id : List Char
  created_at : Int
  title : List Char
  content_preview : List Char
  deriving DecidableEq, Repr

/-- The `ApiResponse` interface. -/
structure ApiResponse where
  success : Bool
  data : Option ApiData
  message : Option (List Char)
  error : Option (List Char)
  deriving DecidableEq, Repr

/-- The relevant observable state of a `fetch` response: its status code,
its body read as text, and its body parsed as JSON (none when the body is
not valid JSON, in which case `response.json()` throws). -/
structure HttpResponse where
  status : Nat
  bodyText : List Char
  json : Option ApiResponse
  deriving DecidableEq, Repr

/-- Embeds `response.ok` of the Fetch API: status in the inclusive range 200–299. -/
def statusOk (status : Nat) : Bool := 200 ≤ status && 299 ≥ status

/-- JavaScript `a || b` for an optional string `a`: `b` when `a` is absent
or the empty string, else the value of `a`. -/
def jsOr (a : Option (List Char)) (b : List Char) : List Char :=
  match a with
  | some x => if x = [] then b else x
  | none => b

/-- The message of the business-failure throw:
`result.error || result.message || '上传失败'`. -/
def businessMsg (r : ApiResponse) : List Char :=
  jsOr r.error (jsOr r.message (String.toList "上传失败"))

/-- Outcome of `callWeChatApi`'s response handling: the `HTTP status: body`
throw, the `response.json()` parse throw, the business-failure throw, or
the returned parsed response. -/
inductive ApiOutcome where
  | httpError (status : Nat) (bodyText : List Char)
  | thrownParse
  | businessError (msg : List Char)
  | ok (r : ApiResponse)
  deriving DecidableEq, Repr

/-- The response-handling tail of `callWeChatApi` (lines 210–223): throw on
non-ok status with the status and body text, parse JSON, throw on falsy
`success`, otherwise return the parsed result. -/
def handleResponse (resp : HttpResponse) : ApiOutcome :=
  if statusOk resp.status then
    match resp.json with
    | none => ApiOutcome.thrownParse
    | some r =>
      if r.success then ApiOutcome.ok r
      else ApiOutcome.businessError (businessMsg r)
  else ApiOutcome.httpError resp.status resp.bodyText

/-- The JSON request body built by `callWeChatApi` (lines 185–198):
`author`/`digest` keys are set only when the config field is truthy. -/
structure RequestBody where
  markdown : List Char
  title : List Char
  appid : List Char
  app_secret : List Char
  author : Option (List Char)
  digest : Option (List Char)
  deriving DecidableEq, Repr

/-- JavaScript truthiness filter for an optional string field:
`if (x) body.k = x` keeps only present, non-empty values. -/
def truthyOpt (a : Option (List Char)) : Option (List Char) :=
  match a with
  | some x => if x = [] then none else some x
  | none => none

/-- Build the request body of `callWeChatApi`. -/
def buildRequestBody (markdown title : List Char) (config : WeChatConfig) : RequestBody :=
  { markdown := markdown
    title := title
    appid := config.appid
    app_secret := config.appSecret
    author := truthyOpt config.author
    digest := truthyOpt config.digest }

/-- What `uploadToWeChat` shows after a completed API call: the detailed
success message with the media id and the copy affordance (lines 93–97),
a plain information message (line 104), or an error message (the
`showErrorMessage` surface used by the catch handler and precondition
checks). -/
inductive UiMessage where
  | successUpload (title media_id : List Char)
  | infoMessage (msg : List Char)
  | errorMessage (msg : List Char)
  deriving DecidableEq, Repr

/-- The presentation step of `uploadToWeChat` for a returned result
(lines 92–107): `if (result.success && result.data)` show the detailed
success message, else show `result.message || '上传成功！'` as a plain
information message. -/
def presentResult (result : ApiResponse) : UiMessage :=
  match result.success, result.data with
  | true, some d => UiMessage.successUpload d.title d.media_id
  | true, none => UiMessage.infoMessage (jsOr result.message (String.toList "上传成功！"))
  | false, _ => UiMessage.infoMessage (jsOr result.message (String.toList "上传成功！"))

/-- Outcome of one `uploadToWeChat` invocation: each early return, the
final presentation of a returned result, or the top-level catch of a
thrown API error. -/
inductive WorkflowOutcome where
  | configError
  | noEditor
  | notMarkdown
  | emptyDocument
  | noTitle
  | presented (p : UiMessage)
  | failed (e : ApiOutcome)
  deriving DecidableEq, Repr

/-- The `languageId` required at line 56. -/
def markdownLangId : List Char := String.toList "markdown"

/-- Embeds `uploadToWeChat()` over its host inputs: the four raw settings, whether
an editor is active, the document's language id, text, file name and
untitled flag, and the HTTP response the transport would produce for the
request.  Follows the source's order: configuration, editor, language,
empty-content and title checks, then the API call with success
presentation or the top-level catch. -/
def uploadToWeChat (rawAppid rawAppSecret rawAuthor rawDigest : List Char)
    (hasEditor : Bool) (languageId text fileName : List Char)
    (isUntitled : Bool) (resp : HttpResponse) : WorkflowOutcome :=
  match getConfiguration rawAppid rawAppSecret rawAuthor rawDigest with
  | none => WorkflowOutcome.configError
  | some _ =>
    if !hasEditor then WorkflowOutcome.noEditor
    else if languageId ≠ markdownLangId then WorkflowOutcome.notMarkdown
    else if trim text = [] then WorkflowOutcome.emptyDocument
    else
      match extractTitle text fileName isUntitled with
      | none => WorkflowOutcome.noTitle
      | some t =>
        if t = [] then WorkflowOutcome.noTitle
        else
          match handleResponse resp with
          | ApiOutcome.ok r => WorkflowOutcome.presented (presentResult r)
          | e => WorkflowOutcome.failed e

/-- Follows the spec's words (§4.2): a matching heading's trimmed capture;
else, for a `.md` path, the basename; else, if the untitled flag is set,
the fixed placeholder string; else null.  Used to compare the source's
`extractTitle` against the specified fixed-priority chain. -/
def extractTitleSpec (text fileName : List Char) (isUntitled : Bool) : Option (List Char) :=
  match findHeading text with
  | some cap => some (trim cap)
  | none =>
    match fileNameMatch fileName with
    | some base => some base
    | none => if isUntitled then some untitledPlaceholder else none

/-- Follows claim C7's words: the business-error message is the response's
`error` field if present, else its `message` field if present, else the
generic fallback string — presence alone, ignoring emptiness. -/
def claimBusinessMsg (r : ApiResponse) : List Char :=
  match r.error with
  | some e => e
  | none =>
    match r.message with
    | some m => m
    | none => String.toList "上传失败"

/-- Follows claim C1's words: a result is treated as a failure for
presentation purposes when it is surfaced through the error-message
channel (`showErrorMessage`). -/
def presentedAsFailure : UiMessage → Bool
  | UiMessage.errorMessage _ => true
  | _ => false

/-! ### Helper lemmas -/

theorem matchDotPlusDollar_ne_nil {l cap : List Char}
    (h : matchDotPlusDollar l = some cap) : cap ≠ [] := by
  cases l with
  | nil => simp [matchDotPlusDollar] at h
  | cons c rest =>
    have h' : (if dotMatch c then some (c :: rest.takeWhile dotMatch)
        else none) = some cap := h
    by_cases hc : dotMatch c = true
    · rw [if_pos hc] at h'
      injection h' with h'
      subst h'
      simp
    · rw [if_neg hc] at h'
      cases h'

theorem tryWsRuns_ne_nil :
    ∀ (k : Nat) (l cap : List Char), tryWsRuns k l = some cap → cap ≠ []
  | 0, l, cap, h => by simp [tryWsRuns] at h
  | k + 1, l, cap, h => by
    unfold tryWsRuns at h
    cases hm : matchDotPlusDollar (l.drop (k + 1)) with
    | some c2 =>
      rw [hm] at h
      injection h with h
      subst h
      exact matchDotPlusDollar_ne_nil hm
    | none =>
      rw [hm] at h
      exact tryWsRuns_ne_nil k l cap h

theorem matchAfterHash_ne_nil {l cap : List Char}
    (h : matchAfterHash l = some cap) : cap ≠ [] :=
  tryWsRuns_ne_nil _ _ _ h

theorem findHeadingAux_ne_nil :
    ∀ (l : List Char) (b : Bool) (cap : List Char),
      findHeadingAux b l = some cap → cap ≠ []
  | [], _, _, h => by simp [findHeadingAux] at h
  | c :: rest, b, cap, h => by
    unfold findHeadingAux at h
    cases hm : (if b && c = '#' then matchAfterHash rest else none) with
    | some c2 =>
      rw [hm] at h
      injection h with h
      subst h
      by_cases hb : (b && c = '#') = true
      · rw [if_pos hb] at hm
        exact matchAfterHash_ne_nil hm
      · rw [if_neg hb] at hm
        cases hm
    | none =>
      rw [hm] at h
      exact findHeadingAux_ne_nil rest (isLineTerm c) cap h

theorem findHeading_ne_nil {text cap : List Char}
    (h : findHeading text = some cap) : cap ≠ [] :=
  findHeadingAux_ne_nil text true cap h

theorem fileNameMatch_ne_nil {f b : List Char}
    (h : fileNameMatch f = some b) : b ≠ [] := by
  unfold fileNameMatch at h
  split at h
  next d m dot rest _ =>
    split at h
    · have h'' : (if rest.takeWhile (fun c => !isSlash c) = [] then none
          else some (rest.takeWhile (fun c => !isSlash c)).reverse) = some b := h
      by_cases hs : rest.takeWhile (fun c => !isSlash c) = []
      · rw [if_pos hs] at h''
        cases h''
      · rw [if_neg hs] at h''
        injection h'' with h''
        subst h''
        simpa using hs
    · cases h
  next => cases h

theorem takeWhile_append_all {α : Type} (p : α → Bool) :
    ∀ (xs ys : List α), (∀ x ∈ xs, p x = true) →
      (xs ++ ys).takeWhile p = xs ++ ys.takeWhile p
  | [], _, _ => rfl
  | x :: xs, ys, h => by
    have hx : p x = true := h x (by simp)
    simp only [List.cons_append, List.takeWhile_cons, hx, if_true]
    rw [takeWhile_append_all p xs ys (fun a ha => h a (by simp [ha]))]

theorem fileNameMatch_decomp (b pre : List Char) (m d : Char)
    (hm : m = 'm' ∨ m = 'M') (hd : d = 'd' ∨ d = 'D')
    (hb : b ≠ []) (hbs : ∀ c ∈ b, isSlash c = false)
    (hp : pre = [] ∨ ∃ q s, pre = q ++ [s] ∧ isSlash s = true) :
    fileNameMatch (pre ++ b ++ ['.', m, d]) = some b := by
  have hrev : (pre ++ b ++ ['.', m, d]).reverse
      = d :: m :: '.' :: (b.reverse ++ pre.reverse) := by
    simp
  have hall : ∀ c ∈ b.reverse, (fun c => !isSlash c) c = true := by
    intro c hc
    simp only [List.mem_reverse] at hc
    simp [hbs c hc]
  have hstem : (b.reverse ++ pre.reverse).takeWhile (fun c => !isSlash c)
      = b.reverse := by
    rcases hp with rfl | ⟨q, s, rfl, hs⟩
    · rw [List.reverse_nil, List.append_nil,
        show b.reverse = b.reverse ++ ([] : List Char).takeWhile (fun c => !isSlash c) by simp]
      exact takeWhile_append_all _ b.reverse [] hall
    · rw [List.reverse_append, List.reverse_singleton, List.singleton_append,
        takeWhile_append_all _ b.reverse (s :: q.reverse) hall,
        List.takeWhile_cons]
      simp [hs]
  unfold fileNameMatch
  rw [hrev]
  rcases hm with rfl | rfl <;> rcases hd with rfl | rfl <;>
    simp [hstem, hb]

theorem tryWsRuns_isSome :
    ∀ (K : Nat) (l : List Char),
      (∃ k, 1 ≤ k ∧ k ≤ K ∧ (matchDotPlusDollar (l.drop k)).isSome) →
      (tryWsRuns K l).isSome
  | 0, _, h => by
    obtain ⟨k, h1, h2, _⟩ := h
    omega
  | K + 1, l, h => by
    unfold tryWsRuns
    cases hm : matchDotPlusDollar (l.drop (K + 1)) with
    | some c2 => simp
    | none =>
      obtain ⟨k, h1, h2, h3⟩ := h
      have hk : k ≤ K := by
        rcases Nat.lt_or_ge k (K + 1) with hlt | hge
        · omega
        · exfalso
          have : k = K + 1 := by omega
          rw [this, hm] at h3
          simp at h3
      exact tryWsRuns_isSome K l ⟨k, h1, hk, h3⟩

theorem matchAfterHash_isSome (w c : Char) (rest : List Char)
    (hw : isWs w = true) (hc : dotMatch c = true) :
    (matchAfterHash (w :: c :: rest)).isSome := by
  unfold matchAfterHash
  apply tryWsRuns_isSome
  refine ⟨1, Nat.le_refl 1, ?_, ?_⟩
  · rw [List.takeWhile_cons]
    simp [hw]
  · simp [matchDotPlusDollar, hc]

theorem findHeadingAux_isSome :
    ∀ (pre : List Char) (b : Bool) (tail : List Char),
      ((pre = [] ∧ b = true) ∨ ∃ q s, pre = q ++ [s] ∧ isLineTerm s = true) →
      (matchAfterHash tail).isSome →
      (findHeadingAux b (pre ++ '#' :: tail)).isSome
  | [], b, tail, hstart, hmatch => by
    have hb : b = true := by
      rcases hstart with ⟨_, hb⟩ | ⟨q, s, hqs, _⟩
      · exact hb
      · exact absurd hqs (by simp)
    subst hb
    rw [List.nil_append]
    unfold findHeadingAux
    cases hm : matchAfterHash tail with
    | some cap => simp [hm]
    | none => rw [hm] at hmatch; simp at hmatch
  | x :: xs, b, tail, hstart, hmatch => by
    rw [List.cons_append]
    unfold findHeadingAux
    cases hm : (if b && x = '#' then matchAfterHash (xs ++ '#' :: tail) else none) with
    | some cap => simp
    | none =>
      simp only []
      have hstart' : (xs = [] ∧ isLineTerm x = true) ∨
          ∃ q s, xs = q ++ [s] ∧ isLineTerm s = true := by
        rcases hstart with ⟨hpre, _⟩ | ⟨q, s, hqs, hs⟩
        · exact absurd hpre (by simp)
        · cases q with
          | nil =>
            simp at hqs
            exact Or.inl ⟨hqs.2, hqs.1 ▸ hs⟩
          | cons y q' =>
            simp at hqs
            exact Or.inr ⟨q', s, hqs.2, hs⟩
      exact findHeadingAux_isSome xs (isLineTerm x) tail hstart' hmatch

theorem findHeading_isSome (pre : List Char) (w c : Char) (rest : List Char)
    (hpre : pre = [] ∨ ∃ q s, pre = q ++ [s] ∧ isLineTerm s = true)
    (hw : isWs w = true) (hc : dotMatch c = true) :
    ∃ cap, findHeading (pre ++ '#' :: w :: c :: rest) = some cap := by
  have hstart : (pre = [] ∧ (true : Bool) = true) ∨
      ∃ q s, pre = q ++ [s] ∧ isLineTerm s = true := by
    rcases hpre with rfl | h
    · exact Or.inl ⟨rfl, rfl⟩
    · exact Or.inr h
  have := findHeadingAux_isSome pre true (w :: c :: rest) hstart
    (matchAfterHash_isSome w c rest hw hc)
  exact Option.isSome_iff_exists.mp this

/-! ### Claim theorems -/

/-- Claim C2: for every document text, file path and untitled flag,
`extractTitle` evaluates exactly the fixed-priority chain in order and
returns the first rule that applies: a matching `#` heading's trimmed
text; else, for a `.md` path, the basename; else, if the untitled flag is
set, the fixed placeholder string; else null — i.e. it coincides with the
chain as the spec words it. -/
theorem c2_extractTitle_follows_priority_chain (text fileName : List Char) (u : Bool) :
    extractTitle text fileName u = extractTitleSpec text fileName u := by
  cases hh : findHeading text with
  | some cap =>
    have hne := findHeading_ne_nil hh
    simp [extractTitle, extractTitleSpec, hh, hne]
  | none =>
    cases hf : fileNameMatch fileName with
    | some base =>
      have hne := fileNameMatch_ne_nil hf
      simp [extractTitle, extractTitleSpec, fileFallback, hh, hf, hne]
    | none =>
      simp [extractTitle, extractTitleSpec, fileFallback, untitledFallback, hh, hf]

/-- Claim C3: for all documents containing a line that starts with `#`
followed by whitespace and one or more characters, `extractTitle` returns
the first match's captured heading text trimmed, regardless of the file
path and regardless of the untitled flag.  Part one: such a document has
a heading-regex match.  Part two: whenever the regex produces a first
capture, the result is that capture trimmed, for every file name and
every untitled flag. -/
theorem c3_heading_first_match_wins (text : List Char) :
    (∀ pre w c rest, text = pre ++ '#' :: w :: c :: rest →
      (pre = [] ∨ ∃ q s, pre = q ++ [s] ∧ isLineTerm s = true) →
      isWs w = true → dotMatch c = true →
      ∃ cap, findHeading text = some cap)
    ∧ (∀ cap fileName u, findHeading text = some cap →
        extractTitle text fileName u = some (trim cap)) := by
  constructor
  · intro pre w c rest ht hpre hw hc
    subst ht
    exact findHeading_isSome pre w c rest hpre hw hc
  · intro cap fileName u h
    have hne := findHeading_ne_nil h
    simp [extractTitle, h, hne]

theorem c3_heading_first_match_wins_witness :
    (∃ cap, findHeading (String.toList "x\n# Hi") = some cap)
    ∧ extractTitle (String.toList "x\n# Hi") (String.toList "other.md") true
        = some (String.toList "Hi") := by
  have h := c3_heading_first_match_wins (String.toList "x\n# Hi")
  constructor
  · exact h.1 (String.toList "x\n") ' ' 'H' (String.toList "i") (by decide)
      (Or.inr ⟨String.toList "x", '\n', by decide, by decide⟩) (by decide) (by decide)
  · have h2 := h.2 (String.toList "Hi") (String.toList "other.md") true (by decide)
    rwa [show trim (String.toList "Hi") = String.toList "Hi" from by decide] at h2

/-- Claim C4: for all documents with no matching `#` heading whose file
path ends in `.md` (case-insensitive) with a non-empty basename — i.e.
the path decomposes as a (possibly empty, otherwise slash-terminated)
directory prefix, a non-empty run of non-slash basename characters, and a
final `.md` in any letter case — `extractTitle` returns that basename,
with the extension removed and with no directory components. -/
theorem c4_md_basename_fallback (text fileName : List Char) (u : Bool)
    (b pre : List Char) (m d : Char)
    (hh : findHeading text = none)
    (hf : fileName = pre ++ b ++ ['.', m, d])
    (hm : m = 'm' ∨ m = 'M') (hd : d = 'd' ∨ d = 'D')
    (hb : b ≠ []) (hbs : ∀ c ∈ b, isSlash c = false)
    (hp : pre = [] ∨ ∃ q s, pre = q ++ [s] ∧ isSlash s = true) :
    extractTitle text fileName u = some b := by
  subst hf
  have hmatch := fileNameMatch_decomp b pre m d hm hd hb hbs hp
  simp only [extractTitle, fileFallback, hh]
  rw [hmatch]
  simp [hb]

theorem c4_md_basename_fallback_witness :
    extractTitle [] (String.toList "docs/Note.MD") false = some (String.toList "Note") :=
  c4_md_basename_fallback [] (String.toList "docs/Note.MD") false
    (String.toList "Note") (String.toList "docs/") 'M' 'D'
    (by decide) (by decide) (Or.inr rfl) (Or.inr rfl) (by decide) (by decide)
    (Or.inr ⟨String.toList "docs", '/', by decide, by decide⟩)

/-- Claim C5: `getConfiguration` returns null exactly when the appid or
appSecret setting is empty or whitespace-only after trimming; otherwise
it returns a config whose appid and appSecret are trimmed and non-empty,
and whose author and digest are absent — never empty strings — whenever
the corresponding setting trims to empty. -/
theorem c5_getConfiguration_validation (a s au dg : List Char) :
    ((trim a = [] ∨ trim s = []) → getConfiguration a s au dg = none)
    ∧ (trim a ≠ [] → trim s ≠ [] →
        ∃ cfg, getConfiguration a s au dg = some cfg
          ∧ cfg.appid = trim a ∧ cfg.appSecret = trim s
          ∧ cfg.appid ≠ [] ∧ cfg.appSecret ≠ []
          ∧ cfg.author = (if trim au = [] then none else some (trim au))
          ∧ cfg.digest = (if trim dg = [] then none else some (trim dg))
          ∧ cfg.author ≠ some [] ∧ cfg.digest ≠ some []) := by
  have hrepr : getConfiguration a s au dg
      = (if trim a = [] ∨ trim s = [] then none else some
          ⟨trim a, trim s, if trim au = [] then none else some (trim au),
            if trim dg = [] then none else some (trim dg)⟩) := rfl
  constructor
  · intro h
    rw [hrepr, if_pos h]
  · intro ha hs
    refine ⟨⟨trim a, trim s, if trim au = [] then none else some (trim au),
      if trim dg = [] then none else some (trim dg)⟩, ?_, rfl, rfl, ha, hs, rfl, rfl, ?_, ?_⟩
    · rw [hrepr, if_neg]
      push_neg
      exact ⟨ha, hs⟩
    · by_cases hau : trim au = [] <;> simp [hau]
    · by_cases hdg : trim dg = [] <;> simp [hdg]

theorem c5_getConfiguration_validation_witness :
    getConfiguration (String.toList " ") (String.toList "sec") [] [] = none
    ∧ ∃ cfg, getConfiguration (String.toList " id ") (String.toList "sec")
        (String.toList " ") (String.toList " dg ") = some cfg
        ∧ cfg.appid = String.toList "id" ∧ cfg.author = none
        ∧ cfg.digest = some (String.toList "dg") := by
  constructor
  · exact (c5_getConfiguration_validation (String.toList " ") (String.toList "sec") [] []).1
      (Or.inl (by decide))
  · obtain ⟨cfg, h1, h2, _, _, _, h6, h7, _, _⟩ :=
      (c5_getConfiguration_validation (String.toList " id ") (String.toList "sec")
        (String.toList " ") (String.toList " dg ")).2 (by decide) (by decide)
    refine ⟨cfg, h1, ?_, ?_, ?_⟩
    · rw [h2]; decide
    · rw [h6]; decide
    · rw [h7]; decide

/-- Claim C6: for every HTTP response with a non-2xx status, the call
fails with an error carrying exactly that status code and the response
body text verbatim, and the body is never parsed as JSON (the outcome is
the same whatever the parsed-JSON component of the response is). -/
theorem c6_non2xx_http_error (resp : HttpResponse)
    (h : statusOk resp.status = false) :
    handleResponse resp = ApiOutcome.httpError resp.status resp.bodyText
    ∧ ∀ j, handleResponse { resp with json := j }
        = ApiOutcome.httpError resp.status resp.bodyText := by
  constructor
  · simp [handleResponse, h]
  · intro j
    simp [handleResponse, h]

theorem c6_non2xx_http_error_witness :
    handleResponse ⟨500, String.toList "Internal Server Error", none⟩
      = ApiOutcome.httpError 500 (String.toList "Internal Server Error")
    ∧ handleResponse ⟨500, String.toList "Internal Server Error",
        some ⟨true, none, none, none⟩⟩
      = ApiOutcome.httpError 500 (String.toList "Internal Server Error") := by
  have h := c6_non2xx_http_error ⟨500, String.toList "Internal Server Error", none⟩
    (by decide)
  exact ⟨h.1, h.2 (some ⟨true, none, none, none⟩)⟩

/-- Claim C7 counterexample: a 2xx response whose parsed JSON is
`success: false` with an error field that is present but empty and a
non-empty message field.  The claim as stated picks the error field
because it is present, i.e. the empty string; the code's
`result.error || result.message || fallback` skips the empty error string
and uses the message field instead. -/
theorem c7_empty_error_field_counterexample :
    handleResponse ⟨200, [],
        some ⟨false, none, some (String.toList "server message"), some []⟩⟩
      ≠ ApiOutcome.businessError
          (claimBusinessMsg ⟨false, none, some (String.toList "server message"), some []⟩)
    ∧ handleResponse ⟨200, [],
        some ⟨false, none, some (String.toList "server message"), some []⟩⟩
      = ApiOutcome.businessError (String.toList "server message")
    ∧ claimBusinessMsg ⟨false, none, some (String.toList "server message"), some []⟩
      = [] := by
  decide

/-- Claim C7 (amended): for every 2xx response whose parsed JSON has a
falsy success flag, the call fails with a business error whose message is
chosen in priority order among the truthy fields: the response's error
field if present and non-empty, else its message field if present and
non-empty, else the generic fallback string. -/
theorem c7_business_error_message_priority (resp : HttpResponse) (r : ApiResponse)
    (hok : statusOk resp.status = true) (hj : resp.json = some r)
    (hs : r.success = false) :
    (∀ e, r.error = some e → e ≠ [] →
      handleResponse resp = ApiOutcome.businessError e)
    ∧ ((r.error = none ∨ r.error = some []) →
        ∀ m, r.message = some m → m ≠ [] →
        handleResponse resp = ApiOutcome.businessError m)
    ∧ ((r.error = none ∨ r.error = some []) →
        (r.message = none ∨ r.message = some []) →
        handleResponse resp = ApiOutcome.businessError (String.toList "上传失败")) := by
  refine ⟨?_, ?_, ?_⟩
  · intro e he hne
    simp [handleResponse, hok, hj, hs, businessMsg, jsOr, he, hne]
  · rintro (he | he) m hm hmne <;>
      simp [handleResponse, hok, hj, hs, businessMsg, jsOr, he, hm, hmne]
  · rintro (he | he) (hm | hm) <;>
      simp [handleResponse, hok, hj, hs, businessMsg, jsOr, he, hm]

theorem c7_business_error_message_priority_witness :
    handleResponse ⟨200, [],
        some ⟨false, none, none, some (String.toList "quota exceeded")⟩⟩
      = ApiOutcome.businessError (String.toList "quota exceeded") :=
  (c7_business_error_message_priority
    ⟨200, [], some ⟨false, none, none, some (String.toList "quota exceeded")⟩⟩
    ⟨false, none, none, some (String.toList "quota exceeded")⟩
    (by decide) rfl rfl).1 (String.toList "quota exceeded") rfl (by decide)

/-- Claim C8: for every 2xx response whose parsed JSON has success true
and a data payload, the call succeeds and returns that parsed response
exactly as received — the returned value is the parsed value itself, so
no field is modified, added or removed. -/
theorem c8_success_payload_returned (resp : HttpResponse) (r : ApiResponse) (d : ApiData)
    (hok : statusOk resp.status = true) (hj : resp.json = some r)
    (hs : r.success = true) (_hd : r.data = some d) :
    handleResponse resp = ApiOutcome.ok r := by
  simp [handleResponse, hok, hj, hs]

theorem c8_success_payload_returned_witness :
    handleResponse ⟨200, [],
        some ⟨true, some ⟨String.toList "abc123", 1700000000,
          String.toList "T", String.toList "P"⟩, none, none⟩⟩
      = ApiOutcome.ok ⟨true, some ⟨String.toList "abc123", 1700000000,
          String.toList "T", String.toList "P"⟩, none, none⟩ :=
  c8_success_payload_returned _ _
    ⟨String.toList "abc123", 1700000000, String.toList "T", String.toList "P"⟩
    (by decide) rfl rfl rfl

/-- Claim C9: for every publish call whose credentials come from
`getConfiguration`, the request body carries the document text under
`markdown`, the title under `title`, and the credentials under `appid`
and `app_secret`, and its `author`/`digest` keys are set exactly when the
corresponding optional credential field is present. -/
theorem c9_request_body_fields (markdown title a s au dg : List Char)
    (cfg : WeChatConfig) (h : getConfiguration a s au dg = some cfg) :
    (buildRequestBody markdown title cfg).markdown = markdown
    ∧ (buildRequestBody markdown title cfg).title = title
    ∧ (buildRequestBody markdown title cfg).appid = cfg.appid
    ∧ (buildRequestBody markdown title cfg).app_secret = cfg.appSecret
    ∧ (buildRequestBody markdown title cfg).author = cfg.author
    ∧ (buildRequestBody markdown title cfg).digest = cfg.digest := by
  have hrepr : getConfiguration a s au dg
      = (if trim a = [] ∨ trim s = [] then none else some
          ⟨trim a, trim s, if trim au = [] then none else some (trim au),
            if trim dg = [] then none else some (trim dg)⟩) := rfl
  rw [hrepr] at h
  by_cases hc : trim a = [] ∨ trim s = []
  · rw [if_pos hc] at h
    cases h
  · rw [if_neg hc] at h
    injection h with h
    subst h
    refine ⟨rfl, rfl, rfl, rfl, ?_, ?_⟩
    · by_cases hau : trim au = [] <;> simp [buildRequestBody, truthyOpt, hau]
    · by_cases hdg : trim dg = [] <;> simp [buildRequestBody, truthyOpt, hdg]

theorem c9_request_body_fields_witness :
    (buildRequestBody (String.toList "text") (String.toList "T")
        ⟨String.toList "id", String.toList "sec", some (String.toList "au"), none⟩).author
      = some (String.toList "au")
    ∧ (buildRequestBody (String.toList "text") (String.toList "T")
        ⟨String.toList "id", String.toList "sec", some (String.toList "au"), none⟩).digest
      = none
    ∧ (buildRequestBody (String.toList "text") (String.toList "T")
        ⟨String.toList "id", String.toList "sec", some (String.toList "au"), none⟩).markdown
      = String.toList "text" := by
  have h := c9_request_body_fields (String.toList "text") (String.toList "T")
    (String.toList "id") (String.toList "sec") (String.toList "au") []
    ⟨String.toList "id", String.toList "sec", some (String.toList "au"), none⟩ (by decide)
  exact ⟨h.2.2.2.2.1, h.2.2.2.2.2, h.1⟩

/-- Claim C1 counterexample: the result with success true, no data
payload and no message field is presented through the plain
information-message surface with the text `上传成功！` ("upload
succeeded!") — it is not routed through the failure (error-message)
surface, so the presentation step does not treat it as a failure. -/
theorem c1_success_without_payload_counterexample :
    presentedAsFailure (presentResult ⟨true, none, none, none⟩) = false
    ∧ presentResult ⟨true, none, none, none⟩
      = UiMessage.infoMessage (String.toList "上传成功！") := by
  decide

/-- Claim C1 (amended): for every result whose success flag is true but
whose data payload is absent, the presentation step does not show the
detailed success presentation (media id plus copy affordance); instead it
shows a plain information message with the result's message field, or the
generic `上传成功！` string when that is absent or empty — it does not
route the result through the failure surface. -/
theorem c1_success_without_payload_info_message (r : ApiResponse)
    (hs : r.success = true) (hd : r.data = none) :
    presentResult r = UiMessage.infoMessage (jsOr r.message (String.toList "上传成功！"))
    ∧ (∀ t mid, presentResult r ≠ UiMessage.successUpload t mid)
    ∧ presentedAsFailure (presentResult r) = false := by
  have hpr : presentResult r
      = UiMessage.infoMessage (jsOr r.message (String.toList "上传成功！")) := by
    simp [presentResult, hs, hd]
  refine ⟨hpr, ?_, ?_⟩
  · intro t mid
    rw [hpr]
    simp
  · rw [hpr]
    rfl

theorem c1_success_without_payload_info_message_witness :
    presentResult ⟨true, none, some (String.toList "draft saved"), none⟩
      = UiMessage.infoMessage (String.toList "draft saved") := by
  have h := (c1_success_without_payload_info_message
    ⟨true, none, some (String.toList "draft saved"), none⟩ rfl rfl).1
  rwa [show jsOr (some (String.toList "draft saved")) (String.toList "上传成功！")
      = String.toList "draft saved" from by decide] at h

/-- Claim C10: for the document text consisting of `#` and two spaces,
`extractTitle` returns the empty string (the regex backtracks so the
capture is a single space, which trims to empty) rather than null or a
later fallback — even though the path ends in `.md` and the untitled
flag is set — and the orchestrator's falsy-title check then treats this
empty string exactly like null, aborting with the no-title error. -/
theorem c10_whitespace_heading_empty_title :
    extractTitle (String.toList "#  ") (String.toList "a.md") true = some []
    ∧ uploadToWeChat (String.toList "id") (String.toList "secret") [] []
        true (String.toList "markdown") (String.toList "#  ") (String.toList "a.md")
        true ⟨200, [], none⟩ = WorkflowOutcome.noTitle := by
  decide

end MD2WX
